import Mathlib

/-!
# Verification of the `gameloop` crate (deWitters fixed-timestep scheduler)

Shallow embedding of `src/gameloop.rs`. The scheduler's mutable state
(`next_game_tick`, stored in a `Cell<usize>`) and its immutable
configuration (`skip_ticks`, `max_frameskip`) are gathered in the
structure `GameLoop`; `usize` quantities become `Nat`. The monotonic
clock (`Instant` / `GameLoop::tick_count`, milliseconds since start) is
modelled by a function `clock : Nat → Nat` giving the value returned by
the `n`-th call to `tick_count()`; a state carries the counter `t` of
reads performed so far, and `Monotone clock` states that time never
decreases. The `f64` interpolation is modelled as the exact rational
value of the division the code performs.
-/

set_option autoImplicit false
set_option linter.unnecessarySeqFocus false

/-- `FrameAction` from `src/gameloop.rs`: a tick or render instruction. -/
inductive FrameAction where
  | Tick : FrameAction
  | Render : ℚ → FrameAction
deriving DecidableEq

/-- `GameLoopError` from `src/gameloop.rs`: errors possible when
initializing `GameLoop`. -/
inductive GameLoopError where
  | BadTps : GameLoopError
  | BadFrameSkip : GameLoopError
deriving DecidableEq

/-- `GameLoop` from `src/gameloop.rs`. `start_time` is not carried: the
clock is modelled externally as the elapsed-milliseconds readings
(`tick_count()` is `start_time.elapsed().as_millis() as usize`, i.e.
milliseconds since the start instant). `next_game_tick` is the contents
of the `Cell<usize>`. -/
structure GameLoop where
  skip_ticks : Nat
  max_frameskip : Nat
  next_game_tick : Nat
deriving DecidableEq

/-- `GameLoop::new(tps, max_frameskip)`: rejects `tps < 1` with `BadTps`,
then `max_frameskip < 1` with `BadFrameSkip`, otherwise constructs the
loop with `skip_ticks = 1000 / tps` (truncating `usize` division) and
`next_game_tick` initialized to `0`. -/
def GameLoop.new (tps max_frameskip : Nat) : Except GameLoopError GameLoop :=
  if tps < 1 then .error .BadTps
  else if max_frameskip < 1 then .error .BadFrameSkip
  else .ok { skip_ticks := 1000 / tps, max_frameskip := max_frameskip,
             next_game_tick := 0 }

/-- `GameLoop::increment_next_game_tick`: adds `skip_ticks` to the
`next_game_tick` cell. -/
def GameLoop.increment_next_game_tick (g : GameLoop) : GameLoop :=
  { g with next_game_tick := g.next_game_tick + g.skip_ticks }

/-- The mutable state of the `FrameActions` iterator (its `game_loop`
borrow is passed separately to `FrameActions.next`). -/
structure FrameActions where
  loops : Nat
  rendered : Bool
deriving DecidableEq

/-- `GameLoop::actions`: creates a fresh iterator state with `loops = 0`
and `rendered = false` borrowing the scheduler. -/
def GameLoop.actions (_ : GameLoop) : FrameActions :=
  { loops := 0, rendered := false }

/-- The interpolation computation at `src/gameloop.rs:207-208`:
`((render_time + skip_ticks - next_tick) as f64) / (skip_ticks as f64)`.
The `usize` subtraction is modelled by truncated `Nat` subtraction (the
reachability invariant below shows it never truncates), and the `f64`
division by exact division in `ℚ`. -/
def interpOf (render_time skip_ticks next_tick : Nat) : ℚ :=
  ((render_time + skip_ticks - next_tick : Nat) : ℚ) / (skip_ticks : ℚ)

/-- One call of `<FrameActions as Iterator>::next`. `clock t` is the
value returned by read number `t` of `tick_count()`. The source reads
the clock once in the tick-branch condition, and — in the render branch
only — a second time for `render_time`; the returned `Nat` is the new
read counter. Returns `(yielded action, scheduler, iterator, counter)`.
Note the tick branch is tested before the `rendered` latch, exactly as
in the source. -/
def FrameActions.next (clock : Nat → Nat) (g : GameLoop) (it : FrameActions)
    (t : Nat) : Option FrameAction × GameLoop × FrameActions × Nat :=
  let next_tick := g.next_game_tick
  if clock t > next_tick ∧ it.loops < g.max_frameskip then
    (some .Tick, g.increment_next_game_tick,
     { it with loops := it.loops + 1 }, t + 1)
  else if it.rendered = false then
    let render_time := clock (t + 1)
    (some (.Render (interpOf render_time g.skip_ticks next_tick)), g,
     { it with rendered := true }, t + 2)
  else
    (none, g, it, t + 1)

/-- Repeatedly call `next` until it yields `None`, collecting the yielded
actions; `fuel` bounds the number of calls (the termination lemmas show
the result is independent of any sufficiently large fuel). -/
def drainAux (clock : Nat → Nat) :
    Nat → GameLoop → FrameActions → Nat →
      List FrameAction × GameLoop × FrameActions × Nat
  | 0, g, it, t => ([], g, it, t)
  | fuel + 1, g, it, t =>
    match FrameActions.next clock g it t with
    | (none, g', it', t') => ([], g', it', t')
    | (some a, g', it', t') =>
      let rest := drainAux clock fuel g' it' t'
      (a :: rest.1, rest.2.1, rest.2.2.1, rest.2.2.2)

/-- Fully drain one `actions()` call: iterate `next` from a fresh
iterator state until `None`. Fuel `max_frameskip + 2` always suffices
(proved below). -/
def GameLoop.drain (g : GameLoop) (clock : Nat → Nat) (t : Nat) :
    List FrameAction :=
  (drainAux clock (g.max_frameskip + 2) g (g.actions) t).1

/-- Is this action a render? -/
def FrameAction.isRender : FrameAction → Bool
  | .Render _ => true
  | .Tick => false

/-- Is this action a tick? -/
def FrameAction.isTick : FrameAction → Bool
  | .Tick => true
  | .Render _ => false

/-- How many more actions this iterator can still yield: at most
`max_frameskip - loops` ticks plus one render. -/
def FrameActions.measure (g : GameLoop) (it : FrameActions) : Nat :=
  (g.max_frameskip - it.loops) + (if it.rendered then 0 else 1)

/-- States reachable from a freshly constructed scheduler by any
interleaving of `actions()` calls (resetting the iterator state) and
`next` steps sharing one monotone clock. -/
inductive Reachable (clock : Nat → Nat) :
    GameLoop → FrameActions → Nat → Prop where
  | init (tps mf : Nat) (g : GameLoop) (h : GameLoop.new tps mf = .ok g) :
      Reachable clock g (g.actions) 0
  | poll (g : GameLoop) (it : FrameActions) (t : Nat)
      (h : Reachable clock g it t) : Reachable clock g (g.actions) t
  | step (g : GameLoop) (it : FrameActions) (t : Nat)
      (a : Option FrameAction) (g' : GameLoop) (it' : FrameActions) (t' : Nat)
      (h : Reachable clock g it t)
      (hs : FrameActions.next clock g it t = (a, g', it', t')) :
      Reachable clock g' it' t'

/-- Case analysis on one `next` call: tick branch, render branch, or
exhausted. -/
theorem next_cases (clock : Nat → Nat) (g : GameLoop) (it : FrameActions)
    (t : Nat) :
    (g.next_game_tick < clock t ∧ it.loops < g.max_frameskip ∧
      FrameActions.next clock g it t =
        (some .Tick, g.increment_next_game_tick,
         ⟨it.loops + 1, it.rendered⟩, t + 1)) ∨
    (¬(g.next_game_tick < clock t ∧ it.loops < g.max_frameskip) ∧
      it.rendered = false ∧
      FrameActions.next clock g it t =
        (some (.Render (interpOf (clock (t + 1)) g.skip_ticks
                 g.next_game_tick)), g, ⟨it.loops, true⟩, t + 2)) ∨
    (¬(g.next_game_tick < clock t ∧ it.loops < g.max_frameskip) ∧
      it.rendered = true ∧
      FrameActions.next clock g it t = (none, g, it, t + 1)) := by
  by_cases h1 : g.next_game_tick < clock t ∧ it.loops < g.max_frameskip
  · exact Or.inl ⟨h1.1, h1.2, by simp [FrameActions.next, h1]⟩
  · by_cases h2 : it.rendered = false
    · exact Or.inr (Or.inl ⟨h1, h2, by simp [FrameActions.next, h1, h2]⟩)
    · refine Or.inr (Or.inr ⟨h1, by simpa using h2, ?_⟩)
      simp only [Bool.not_eq_false] at h2
      simp [FrameActions.next, h1, h2]

example : GameLoop.new 20 5 = .ok ⟨50, 5, 0⟩ := rfl
example : GameLoop.new 0 3 = .error .BadTps := rfl
example : GameLoop.new 3 0 = .error .BadFrameSkip := rfl

@[simp]
theorem isRender_Tick : FrameAction.Tick.isRender = false := rfl

@[simp]
theorem isRender_Render (q : ℚ) : (FrameAction.Render q).isRender = true := rfl

@[simp]
theorem isTick_Tick : FrameAction.Tick.isTick = true := rfl

@[simp]
theorem isTick_Render (q : ℚ) : (FrameAction.Render q).isTick = false := rfl

/-- Whenever `next` yields an action, the iterator's remaining-action
measure strictly decreases, and the configuration fields are unchanged. -/
theorem measure_step (clock : Nat → Nat) (g : GameLoop) (it : FrameActions)
    (t : Nat) (a : FrameAction) (g' : GameLoop) (it' : FrameActions) (t' : Nat)
    (h : FrameActions.next clock g it t = (some a, g', it', t')) :
    FrameActions.measure g' it' < FrameActions.measure g it ∧
      g'.max_frameskip = g.max_frameskip ∧ g'.skip_ticks = g.skip_ticks := by
  rcases next_cases clock g it t with ⟨h1, h2, heq⟩ | ⟨h1, h2, heq⟩ |
    ⟨h1, h2, heq⟩ <;> rw [heq] at h <;>
    simp only [Prod.mk.injEq, Option.some.injEq] at h
  · obtain ⟨-, hg, hit, -⟩ := h
    subst hg; subst hit
    refine ⟨?_, rfl, rfl⟩
    simp only [FrameActions.measure, GameLoop.increment_next_game_tick]
    omega
  · obtain ⟨-, hg, hit, -⟩ := h
    subst hg; subst hit
    refine ⟨?_, rfl, rfl⟩
    simp [FrameActions.measure, h2]
  · exact absurd h.1 (by simp)

/-- Draining with any two sufficient amounts of fuel gives the same
result: the iteration has terminated before the fuel runs out. -/
theorem drainAux_stable (clock : Nat → Nat) :
    ∀ (fuel1 fuel2 : Nat) (g : GameLoop) (it : FrameActions) (t : Nat),
      FrameActions.measure g it < fuel1 → FrameActions.measure g it < fuel2 →
      drainAux clock fuel1 g it t = drainAux clock fuel2 g it t := by
  intro fuel1
  induction fuel1 with
  | zero => intro fuel2 g it t h1 _; omega
  | succ f1 ih =>
    intro fuel2 g it t h1 h2
    match fuel2 with
    | 0 => omega
    | f2 + 1 =>
      rcases ha : FrameActions.next clock g it t with ⟨a, g', it', t'⟩
      match a with
      | none => simp only [drainAux, ha]
      | some a =>
        obtain ⟨hm, -, -⟩ := measure_step clock g it t a g' it' t' ha
        simp only [drainAux, ha]
        rw [ih f2 g' it' t' (by omega) (by omega)]

/-- The number of `Render` actions produced by draining is `1` when the
iterator has not yet rendered, and `0` afterwards. -/
theorem drainAux_render_count (clock : Nat → Nat) :
    ∀ (fuel : Nat) (g : GameLoop) (it : FrameActions) (t : Nat),
      FrameActions.measure g it < fuel →
      ((drainAux clock fuel g it t).1.countP (fun a => a.isRender)) =
        (if it.rendered then 0 else 1) := by
  intro fuel
  induction fuel with
  | zero => intro g it t h; omega
  | succ f ih =>
    intro g it t h
    rcases next_cases clock g it t with ⟨h1, h2, heq⟩ | ⟨h1, h2, heq⟩ |
      ⟨h1, h2, heq⟩
    · obtain ⟨hm, -, -⟩ := measure_step clock g it t _ _ _ _ heq
      simp only [drainAux, heq, List.countP_cons]
      rw [ih (g.increment_next_game_tick) ⟨it.loops + 1, it.rendered⟩ (t + 1)
        (by omega)]
      simp
    · obtain ⟨hm, -, -⟩ := measure_step clock g it t _ _ _ _ heq
      simp only [drainAux, heq, List.countP_cons]
      rw [ih g ⟨it.loops, true⟩ (t + 2) (by omega)]
      simp [h2]
    · simp [drainAux, heq, h2]

/-- The number of `Tick` actions produced by draining is at most
`max_frameskip - loops`. -/
theorem drainAux_tick_count (clock : Nat → Nat) :
    ∀ (fuel : Nat) (g : GameLoop) (it : FrameActions) (t : Nat),
      ((drainAux clock fuel g it t).1.countP (fun a => a.isTick)) ≤
        g.max_frameskip - it.loops := by
  intro fuel
  induction fuel with
  | zero => intro g it t; simp [drainAux]
  | succ f ih =>
    intro g it t
    rcases next_cases clock g it t with ⟨h1, h2, heq⟩ | ⟨h1, h2, heq⟩ |
      ⟨h1, h2, heq⟩
    · simp only [drainAux, heq, List.countP_cons]
      have := ih (g.increment_next_game_tick) ⟨it.loops + 1, it.rendered⟩ (t + 1)
      simp only [GameLoop.increment_next_game_tick] at this ⊢
      simp only [isTick_Tick, if_true] at this ⊢
      omega
    · simp only [drainAux, heq, List.countP_cons, isTick_Render]
      have := ih g ⟨it.loops, true⟩ (t + 2)
      simp only at this
      simp only [Bool.false_eq_true, if_false]
      omega
    · simp [drainAux, heq]

/-- Inversion of a successful construction: the scheduler starts with
`skip_ticks = 1000 / tps` and `next_game_tick = 0`, and both arguments
were at least `1`. -/
theorem new_ok (tps mf : Nat) (g : GameLoop)
    (h : GameLoop.new tps mf = .ok g) :
    g = ⟨1000 / tps, mf, 0⟩ ∧ 1 ≤ tps ∧ 1 ≤ mf := by
  unfold GameLoop.new at h
  split at h
  · exact absurd h (by simp)
  · split at h
    · exact absurd h (by simp)
    · refine ⟨?_, by omega, by omega⟩
      cases h
      rfl

/-- Reachability invariant: the next tick deadline never exceeds the
current clock reading by more than one tick interval (so the `usize`
subtraction in the interpolation cannot underflow). -/
theorem reach_deadline_le (clock : Nat → Nat) (hm : Monotone clock)
    (g : GameLoop) (it : FrameActions) (t : Nat)
    (h : Reachable clock g it t) :
    g.next_game_tick ≤ clock t + g.skip_ticks := by
  induction h with
  | init tps mf g hnew =>
    obtain ⟨hg, -, -⟩ := new_ok tps mf g hnew
    subst hg
    exact Nat.zero_le _
  | poll g it t h ih => exact ih
  | step g it t a g' it' t' h hs ih =>
    rcases next_cases clock g it t with ⟨h1, h2, heq⟩ | ⟨h1, h2, heq⟩ |
      ⟨h1, h2, heq⟩ <;> rw [heq] at hs <;>
      simp only [Prod.mk.injEq] at hs <;>
      obtain ⟨-, hg, -, ht⟩ := hs <;> subst hg <;> subst ht
    · have hc : clock t ≤ clock (t + 1) := hm (by omega)
      simp only [GameLoop.increment_next_game_tick]
      omega
    · have hc : clock t ≤ clock (t + 2) := hm (by omega)
      omega
    · have hc : clock t ≤ clock (t + 1) := hm (by omega)
      omega

/-- Strict reachability invariant (when the tick interval is positive):
the deadline is strictly below the clock reading plus one interval, so
the interpolation numerator is strictly positive. -/
theorem reach_deadline_lt (clock : Nat → Nat) (hm : Monotone clock)
    (g : GameLoop) (it : FrameActions) (t : Nat)
    (h : Reachable clock g it t) :
    1 ≤ g.skip_ticks → g.next_game_tick < clock t + g.skip_ticks := by
  induction h with
  | init tps mf g hnew =>
    obtain ⟨hg, -, -⟩ := new_ok tps mf g hnew
    subst hg
    intro hsk
    have hsk2 : 1 ≤ 1000 / tps := hsk
    have hgoal : (0 : Nat) < clock 0 + 1000 / tps := by omega
    exact hgoal
  | poll g it t h ih => exact ih
  | step g it t a g' it' t' h hs ih =>
    rcases next_cases clock g it t with ⟨h1, h2, heq⟩ | ⟨h1, h2, heq⟩ |
      ⟨h1, h2, heq⟩ <;> rw [heq] at hs <;>
      simp only [Prod.mk.injEq] at hs <;>
      obtain ⟨-, hg, -, ht⟩ := hs <;> subst hg <;> subst ht
    · have hc : clock t ≤ clock (t + 1) := hm (by omega)
      simp only [GameLoop.increment_next_game_tick]
      intro hsk
      have := ih hsk
      omega
    · have hc : clock t ≤ clock (t + 2) := hm (by omega)
      intro hsk
      have := ih hsk
      omega
    · have hc : clock t ≤ clock (t + 1) := hm (by omega)
      intro hsk
      have := ih hsk
      omega

/-- Reachability invariant: `next_game_tick` is always a multiple of
`skip_ticks` (it starts at `0` and each tick adds `skip_ticks`). -/
theorem reach_dvd (clock : Nat → Nat) (g : GameLoop) (it : FrameActions)
    (t : Nat) (h : Reachable clock g it t) :
    g.skip_ticks ∣ g.next_game_tick := by
  induction h with
  | init tps mf g hnew =>
    obtain ⟨hg, -, -⟩ := new_ok tps mf g hnew
    subst hg
    exact Dvd.intro 0 rfl
  | poll g it t h ih => exact ih
  | step g it t a g' it' t' h hs ih =>
    rcases next_cases clock g it t with ⟨h1, h2, heq⟩ | ⟨h1, h2, heq⟩ |
      ⟨h1, h2, heq⟩ <;> rw [heq] at hs <;>
      simp only [Prod.mk.injEq] at hs <;>
      obtain ⟨-, hg, -, -⟩ := hs <;> subst hg
    · exact dvd_add ih (dvd_refl _)
    · exact ih
    · exact ih

/-- Any `Render` action the iterator ever yields has a non-negative
interpolation: the numerator is a `usize` (here a `Nat`) cast, so the
`f64` ratio of two non-negative values cannot be negative. -/
theorem render_interp_nonneg (clock : Nat → Nat) (g : GameLoop)
    (it : FrameActions) (t : Nat) (q : ℚ) (g' : GameLoop)
    (it' : FrameActions) (t' : Nat)
    (h : FrameActions.next clock g it t = (some (.Render q), g', it', t')) :
    0 ≤ q := by
  rcases next_cases clock g it t with ⟨h1, h2, heq⟩ | ⟨h1, h2, heq⟩ |
    ⟨h1, h2, heq⟩ <;> rw [heq] at h <;>
    simp only [Prod.mk.injEq, Option.some.injEq] at h
  · exact absurd h.1 (by simp)
  · obtain ⟨hq, -, -, -⟩ := h
    rw [FrameAction.Render.injEq] at hq
    rw [← hq]
    exact div_nonneg (Nat.cast_nonneg _) (Nat.cast_nonneg _)
  · exact absurd h.1 (by simp)

/-- In any reachable state of a scheduler with a positive tick interval,
a yielded `Render` has strictly positive interpolation. -/
theorem render_interp_pos (clock : Nat → Nat) (hm : Monotone clock)
    (g : GameLoop) (it : FrameActions) (t : Nat) (q : ℚ) (g' : GameLoop)
    (it' : FrameActions) (t' : Nat) (hr : Reachable clock g it t)
    (hsk : 1 ≤ g.skip_ticks)
    (h : FrameActions.next clock g it t = (some (.Render q), g', it', t')) :
    0 < q := by
  have hlt := reach_deadline_lt clock hm g it t hr hsk
  have hc : clock t ≤ clock (t + 1) := hm (by omega)
  rcases next_cases clock g it t with ⟨h1, h2, heq⟩ | ⟨h1, h2, heq⟩ |
    ⟨h1, h2, heq⟩ <;> rw [heq] at h <;>
    simp only [Prod.mk.injEq, Option.some.injEq] at h
  · exact absurd h.1 (by simp)
  · obtain ⟨hq, -, -, -⟩ := h
    rw [FrameAction.Render.injEq] at hq
    rw [← hq]
    unfold interpOf
    apply div_pos
    · have hnum : 1 ≤ clock (t + 1) + g.skip_ticks - g.next_game_tick := by
        omega
      exact_mod_cast Nat.lt_of_lt_of_le Nat.zero_lt_one hnum
    · exact_mod_cast hsk
  · exact absurd h.1 (by simp)

/-- C1: for every scheduler, fully draining the iterator from one
`actions()` call yields exactly one `Render` action — never zero, never
more than one — and the drain terminates: any fuel of at least
`max_frameskip + 2` calls already reaches `None` and yields the same
finite sequence. -/
theorem C1_exactly_one_render (clock : Nat → Nat) (g : GameLoop) (t : Nat) :
    ((g.drain clock t).countP fun a => a.isRender) = 1 ∧
    ∀ fuel : Nat, g.max_frameskip + 2 ≤ fuel →
      (drainAux clock fuel g (g.actions) t).1 = g.drain clock t := by
  have hmeas : FrameActions.measure g (g.actions) = g.max_frameskip + 1 := by
    simp [FrameActions.measure, GameLoop.actions]
  constructor
  · unfold GameLoop.drain
    rw [drainAux_render_count clock _ g (g.actions) t (by omega)]
    simp [GameLoop.actions]
  · intro fuel hf
    unfold GameLoop.drain
    rw [drainAux_stable clock fuel (g.max_frameskip + 2) g (g.actions) t
      (by omega) (by omega)]

/-- Witness for C1 at a concrete scheduler and clock. -/
theorem C1_exactly_one_render_witness :
    (((⟨50, 5, 0⟩ : GameLoop).drain (fun _ => 0) 0).countP
       fun a => a.isRender) = 1 ∧
    (drainAux (fun _ => 0) 10 (⟨50, 5, 0⟩ : GameLoop)
       ((⟨50, 5, 0⟩ : GameLoop).actions) 0).1 =
      (⟨50, 5, 0⟩ : GameLoop).drain (fun _ => 0) 0 :=
  ⟨(C1_exactly_one_render (fun _ => 0) ⟨50, 5, 0⟩ 0).1,
   (C1_exactly_one_render (fun _ => 0) ⟨50, 5, 0⟩ 0).2 10 (by decide)⟩

/-- C2 counterexample: the claim that after the `Render` is drawn every
further `next()` returns `None` even if more time passes is false. On
`GameLoop::new(20, 5)` (state `⟨50, 5, 0⟩`), with no elapsed time the
first draw yields the `Render`; if the clock then advances to `100`, the
next draw on the same iterator instance yields `Some(Tick)`, not `None`,
because the source tests the tick branch before the `rendered` latch. -/
theorem C2_cex :
    GameLoop.new 20 5 = .ok ⟨50, 5, 0⟩ ∧
    Monotone (fun i : Nat => if i ≤ 1 then 0 else 100) ∧
    FrameActions.next (fun i => if i ≤ 1 then 0 else 100)
        ⟨50, 5, 0⟩ ⟨0, false⟩ 0 =
      (some (.Render (interpOf 0 50 0)), ⟨50, 5, 0⟩, ⟨0, true⟩, 2) ∧
    interpOf 0 50 0 = 1 ∧
    (FrameActions.next (fun i => if i ≤ 1 then 0 else 100)
        ⟨50, 5, 0⟩ ⟨0, true⟩ 2).1 = some .Tick := by
  refine ⟨rfl, ?_, rfl, by norm_num [interpOf], rfl⟩
  intro i j hij
  by_cases hi : i ≤ 1
  · by_cases hj : j ≤ 1 <;> simp [hi, hj]
  · have hj : ¬ j ≤ 1 := by omega
    simp [hi, hj]

/-- C2 (amended): after the `Render` has been drawn (`rendered = true`),
a further draw on the same iterator returns `None` if and only if the
tick condition fails at that draw — the elapsed reading does not exceed
`next_game_tick`, or `loops` has reached `max_frameskip`. In particular
draws return `None` while no further time passes, but if time advances
past the deadline with `loops < max_frameskip` the iterator yields
`Tick` again. -/
theorem C2_exhaustion_amended (clock : Nat → Nat) (g : GameLoop)
    (it : FrameActions) (t : Nat) (h : it.rendered = true) :
    (FrameActions.next clock g it t).1 = none ↔
      ¬(g.next_game_tick < clock t ∧ it.loops < g.max_frameskip) := by
  rcases next_cases clock g it t with ⟨h1, h2, heq⟩ | ⟨h1, h2, heq⟩ |
    ⟨h1, h2, heq⟩
  · rw [heq]
    simp [h1, h2]
  · rw [h] at h2
    exact absurd h2 (by simp)
  · rw [heq]
    simp [h1]

/-- Witness for the amended C2 at a concrete exhausted iterator. -/
theorem C2_exhaustion_amended_witness :
    (FrameActions.next (fun _ => 0) (⟨50, 5, 0⟩ : GameLoop) ⟨0, true⟩ 0).1 =
        none ↔
      ¬((⟨50, 5, 0⟩ : GameLoop).next_game_tick < 0 ∧
        (⟨0, true⟩ : FrameActions).loops <
          (⟨50, 5, 0⟩ : GameLoop).max_frameskip) :=
  C2_exhaustion_amended (fun _ => 0) ⟨50, 5, 0⟩ ⟨0, true⟩ 0 rfl

/-- C3: the number of `Tick` actions produced while draining one
`actions()` call is at least `0` (it is a `Nat`) and at most
`max_frameskip`. -/
theorem C3_ticks_at_most_max_frameskip (clock : Nat → Nat) (g : GameLoop)
    (t : Nat) :
    ((g.drain clock t).countP fun a => a.isTick) ≤ g.max_frameskip := by
  have h := drainAux_tick_count clock (g.max_frameskip + 2) g (g.actions) t
  simpa [GameLoop.drain, GameLoop.actions] using h

/-- C4: polling is total on reachable states. With a monotone clock, in
every reachable state the deadline satisfies
`next_game_tick ≤ render_time + skip_ticks` (where `render_time` is the
next clock reading the render branch would use), so the `usize`
computation `render_time + skip_ticks - next_tick` never underflows: any
`Render` yielded from a reachable state carries exactly the untruncated
rational value of that formula. -/
theorem C4_poll_total (clock : Nat → Nat) (hm : Monotone clock)
    (g : GameLoop) (it : FrameActions) (t : Nat)
    (hr : Reachable clock g it t) :
    g.next_game_tick ≤ clock (t + 1) + g.skip_ticks ∧
    ∀ (q : ℚ) (g' : GameLoop) (it' : FrameActions) (t' : Nat),
      FrameActions.next clock g it t = (some (.Render q), g', it', t') →
      q = ((clock (t + 1) : ℚ) + (g.skip_ticks : ℚ) - (g.next_game_tick : ℚ)) /
        (g.skip_ticks : ℚ) := by
  have h1 := reach_deadline_le clock hm g it t hr
  have hc : clock t ≤ clock (t + 1) := hm (by omega)
  refine ⟨by omega, ?_⟩
  intro q g' it' t' h
  rcases next_cases clock g it t with ⟨ha, hb, heq⟩ | ⟨ha, hb, heq⟩ |
    ⟨ha, hb, heq⟩ <;> rw [heq] at h <;>
    simp only [Prod.mk.injEq, Option.some.injEq] at h
  · exact absurd h.1 (by simp)
  · obtain ⟨hq, -, -, -⟩ := h
    rw [FrameAction.Render.injEq] at hq
    rw [← hq]
    unfold interpOf
    rw [Nat.cast_sub (by omega), Nat.cast_add]
  · exact absurd h.1 (by simp)

/-- Witness for C4 at a freshly constructed `GameLoop::new(20, 5)` with a
constant-zero clock. -/
theorem C4_poll_total_witness :
    (⟨50, 5, 0⟩ : GameLoop).next_game_tick ≤
      (fun _ : Nat => 0) (0 + 1) + (⟨50, 5, 0⟩ : GameLoop).skip_ticks ∧
    ∀ (q : ℚ) (g' : GameLoop) (it' : FrameActions) (t' : Nat),
      FrameActions.next (fun _ : Nat => 0) ⟨50, 5, 0⟩
          ((⟨50, 5, 0⟩ : GameLoop).actions) 0 = (some (.Render q), g', it', t') →
      q = (((fun _ : Nat => 0) (0 + 1) : ℚ) +
          ((⟨50, 5, 0⟩ : GameLoop).skip_ticks : ℚ) -
          ((⟨50, 5, 0⟩ : GameLoop).next_game_tick : ℚ)) /
        ((⟨50, 5, 0⟩ : GameLoop).skip_ticks : ℚ) :=
  C4_poll_total (fun _ : Nat => 0) monotone_const ⟨50, 5, 0⟩
    ((⟨50, 5, 0⟩ : GameLoop).actions) 0 (Reachable.init 20 5 ⟨50, 5, 0⟩ rfl)

/-- C5: `GameLoop::new(tps, max_frameskip)` fails with `BadTps` exactly
when `tps < 1`, fails with `BadFrameSkip` exactly when `tps ≥ 1` and
`max_frameskip < 1` (tick rate is validated first, so `new(0, 0)` gives
`BadTps`), and otherwise succeeds with `skip_ticks = 1000 / tps`
(truncated) and `next_game_tick = 0`. -/
theorem C5_new_validation (tps mf : Nat) :
    (GameLoop.new tps mf = .error .BadTps ↔ tps < 1) ∧
    (GameLoop.new tps mf = .error .BadFrameSkip ↔ 1 ≤ tps ∧ mf < 1) ∧
    (1 ≤ tps → 1 ≤ mf → GameLoop.new tps mf = .ok ⟨1000 / tps, mf, 0⟩) ∧
    GameLoop.new 0 0 = .error .BadTps := by
  refine ⟨?_, ?_, ?_, rfl⟩
  · unfold GameLoop.new
    by_cases h1 : tps < 1
    · simp [h1]
    · by_cases h2 : mf < 1 <;> simp [h1, h2]
  · unfold GameLoop.new
    by_cases h1 : tps < 1
    · simp only [if_pos h1, Except.error.injEq]
      constructor
      · intro h
        exact absurd h (by decide)
      · intro h
        omega
    · by_cases h2 : mf < 1 <;> simp [h1, h2] <;> omega
  · intro ha hb
    unfold GameLoop.new
    rw [if_neg (by omega), if_neg (by omega)]

/-- Witness for C5 at `new(20, 5)`. -/
theorem C5_new_validation_witness :
    GameLoop.new 20 5 = .ok ⟨50, 5, 0⟩ :=
  (C5_new_validation 20 5).2.2.1 (by omega) (by omega)

/-- C6: in every reachable state, `next_game_tick` is a (non-negative)
multiple of `skip_ticks`; a `next` call never decreases it; and a call
yielding `Tick` advances it by exactly `skip_ticks`. -/
theorem C6_deadline_multiple (clock : Nat → Nat) (g : GameLoop)
    (it : FrameActions) (t : Nat) (hr : Reachable clock g it t) :
    g.skip_ticks ∣ g.next_game_tick ∧
    (∀ (a : Option FrameAction) (g' : GameLoop) (it' : FrameActions)
        (t' : Nat),
      FrameActions.next clock g it t = (a, g', it', t') →
      g.next_game_tick ≤ g'.next_game_tick) ∧
    (∀ (g' : GameLoop) (it' : FrameActions) (t' : Nat),
      FrameActions.next clock g it t = (some .Tick, g', it', t') →
      g'.next_game_tick = g.next_game_tick + g.skip_ticks) := by
  refine ⟨reach_dvd clock g it t hr, ?_, ?_⟩
  · intro a g' it' t' h
    rcases next_cases clock g it t with ⟨h1, h2, heq⟩ | ⟨h1, h2, heq⟩ |
      ⟨h1, h2, heq⟩ <;> rw [heq] at h <;>
      simp only [Prod.mk.injEq] at h <;>
      obtain ⟨-, hg, -, -⟩ := h <;> subst hg
    · simp [GameLoop.increment_next_game_tick]
    · exact le_refl _
    · exact le_refl _
  · intro g' it' t' h
    rcases next_cases clock g it t with ⟨h1, h2, heq⟩ | ⟨h1, h2, heq⟩ |
      ⟨h1, h2, heq⟩ <;> rw [heq] at h <;>
      simp only [Prod.mk.injEq, Option.some.injEq] at h
    · obtain ⟨-, hg, -, -⟩ := h
      subst hg
      rfl
    · exact absurd h.1 (by simp)
    · exact absurd h.1 (by simp)

/-- Witness for C6 at a freshly constructed `GameLoop::new(20, 5)` with a
constant-zero clock. -/
theorem C6_deadline_multiple_witness :
    (⟨50, 5, 0⟩ : GameLoop).skip_ticks ∣
      (⟨50, 5, 0⟩ : GameLoop).next_game_tick ∧
    (∀ (a : Option FrameAction) (g' : GameLoop) (it' : FrameActions)
        (t' : Nat),
      FrameActions.next (fun _ : Nat => 0) ⟨50, 5, 0⟩
          ((⟨50, 5, 0⟩ : GameLoop).actions) 0 = (a, g', it', t') →
      (⟨50, 5, 0⟩ : GameLoop).next_game_tick ≤ g'.next_game_tick) ∧
    (∀ (g' : GameLoop) (it' : FrameActions) (t' : Nat),
      FrameActions.next (fun _ : Nat => 0) ⟨50, 5, 0⟩
          ((⟨50, 5, 0⟩ : GameLoop).actions) 0 = (some .Tick, g', it', t') →
      g'.next_game_tick =
        (⟨50, 5, 0⟩ : GameLoop).next_game_tick +
          (⟨50, 5, 0⟩ : GameLoop).skip_ticks) :=
  C6_deadline_multiple (fun _ : Nat => 0) ⟨50, 5, 0⟩
    ((⟨50, 5, 0⟩ : GameLoop).actions) 0 (Reachable.init 20 5 ⟨50, 5, 0⟩ rfl)

/-- C7: a yielded `Render` carries the interpolation
`(elapsed + skip_ticks - next_game_tick) / skip_ticks` where `elapsed`
is the clock reading taken at render time (index `t + 1`: re-read, not
the cached tick-loop reading at index `t`); concretely, `new(1, 1)`
polled with zero elapsed time renders with interpolation
`(0 + 1000 - 0) / 1000 = 1`, and with readings `0` then `25` the later
reading `25` is the one used. -/
theorem C7_interpolation_re_read :
    (∀ (clock : Nat → Nat) (g : GameLoop) (it : FrameActions) (t : Nat)
        (q : ℚ) (g' : GameLoop) (it' : FrameActions) (t' : Nat),
      FrameActions.next clock g it t = (some (.Render q), g', it', t') →
      q = interpOf (clock (t + 1)) g.skip_ticks g.next_game_tick) ∧
    GameLoop.new 1 1 = .ok ⟨1000, 1, 0⟩ ∧
    (⟨1000, 1, 0⟩ : GameLoop).drain (fun _ => 0) 0 =
      [.Render (interpOf 0 1000 0)] ∧
    interpOf 0 1000 0 = 1 ∧
    (FrameActions.next (fun i => if i = 0 then 0 else 25)
        ⟨1000, 1, 0⟩ ⟨0, false⟩ 0).1 = some (.Render (interpOf 25 1000 0)) := by
  refine ⟨?_, rfl, rfl, by norm_num [interpOf], rfl⟩
  intro clock g it t q g' it' t' h
  rcases next_cases clock g it t with ⟨h1, h2, heq⟩ | ⟨h1, h2, heq⟩ |
    ⟨h1, h2, heq⟩ <;> rw [heq] at h <;>
    simp only [Prod.mk.injEq, Option.some.injEq] at h
  · exact absurd h.1 (by simp)
  · obtain ⟨hq, -, -, -⟩ := h
    rw [FrameAction.Render.injEq] at hq
    exact hq.symm
  · exact absurd h.1 (by simp)

/-- Witness for C7's general formula at `new(1, 1)` with a constant-zero
clock. -/
theorem C7_interpolation_re_read_witness :
    interpOf 0 1000 0 =
      interpOf ((fun _ : Nat => 0) (0 + 1)) (⟨1000, 1, 0⟩ : GameLoop).skip_ticks
        (⟨1000, 1, 0⟩ : GameLoop).next_game_tick :=
  (C7_interpolation_re_read).1 (fun _ : Nat => 0) ⟨1000, 1, 0⟩ ⟨0, false⟩ 0
    (interpOf 0 1000 0) ⟨1000, 1, 0⟩ ⟨0, true⟩ 2 rfl

/-- C8 counterexample: the claim that reachable states exist in which the
render interpolation is negative is false — the numerator of the ratio
is a `usize` quantity, so every `Render` the iterator can ever yield
(from any state at all) has non-negative interpolation. -/
theorem C8_cex :
    ¬ ∃ (clock : Nat → Nat) (g : GameLoop) (it : FrameActions) (t : Nat)
        (q : ℚ) (g' : GameLoop) (it' : FrameActions) (t' : Nat),
      Reachable clock g it t ∧
      FrameActions.next clock g it t = (some (.Render q), g', it', t') ∧
      q < 0 := by
  rintro ⟨clock, g, it, t, q, g', it', t', -, h, hneg⟩
  exact absurd (render_interp_nonneg clock g it t q g' it' t' h)
    (not_le.mpr hneg)

/-- C8 (amended): the interpolation is not clamped and reachable states
with interpolation greater than `1` exist (a capped catch-up poll on
`new(20, 5)` after 400ms renders with interpolation `4`); however it can
never be negative (the numerator is unsigned), and in any reachable
state of a scheduler with `skip_ticks ≥ 1` it is strictly positive —
never zero. -/
theorem C8_interp_not_clamped :
    (∀ (clock : Nat → Nat) (g : GameLoop) (it : FrameActions) (t : Nat)
        (q : ℚ) (g' : GameLoop) (it' : FrameActions) (t' : Nat),
      FrameActions.next clock g it t = (some (.Render q), g', it', t') →
      0 ≤ q) ∧
    (∀ (clock : Nat → Nat) (g : GameLoop) (it : FrameActions) (t : Nat)
        (q : ℚ) (g' : GameLoop) (it' : FrameActions) (t' : Nat),
      Monotone clock → Reachable clock g it t → 1 ≤ g.skip_ticks →
      FrameActions.next clock g it t = (some (.Render q), g', it', t') →
      0 < q) ∧
    Reachable (fun _ : Nat => 400) ⟨50, 5, 250⟩ ⟨5, false⟩ 5 ∧
    (FrameActions.next (fun _ : Nat => 400) ⟨50, 5, 250⟩ ⟨5, false⟩ 5).1 =
      some (.Render (interpOf 400 50 250)) ∧
    interpOf 400 50 250 = 4 ∧ (1 : ℚ) < 4 := by
  refine ⟨?_, ?_, ?_, rfl, by norm_num [interpOf], by norm_num⟩
  · exact render_interp_nonneg
  · exact fun clock g it t q g' it' t' hm hr hsk h =>
      render_interp_pos clock hm g it t q g' it' t' hr hsk h
  · have h0 : Reachable (fun _ : Nat => 400) ⟨50, 5, 0⟩ ⟨0, false⟩ 0 :=
      Reachable.init 20 5 ⟨50, 5, 0⟩ rfl
    have h1 : Reachable (fun _ : Nat => 400) ⟨50, 5, 50⟩ ⟨1, false⟩ 1 :=
      Reachable.step ⟨50, 5, 0⟩ ⟨0, false⟩ 0 (some .Tick) ⟨50, 5, 50⟩
        ⟨1, false⟩ 1 h0 rfl
    have h2 : Reachable (fun _ : Nat => 400) ⟨50, 5, 100⟩ ⟨2, false⟩ 2 :=
      Reachable.step ⟨50, 5, 50⟩ ⟨1, false⟩ 1 (some .Tick) ⟨50, 5, 100⟩
        ⟨2, false⟩ 2 h1 rfl
    have h3 : Reachable (fun _ : Nat => 400) ⟨50, 5, 150⟩ ⟨3, false⟩ 3 :=
      Reachable.step ⟨50, 5, 100⟩ ⟨2, false⟩ 2 (some .Tick) ⟨50, 5, 150⟩
        ⟨3, false⟩ 3 h2 rfl
    have h4 : Reachable (fun _ : Nat => 400) ⟨50, 5, 200⟩ ⟨4, false⟩ 4 :=
      Reachable.step ⟨50, 5, 150⟩ ⟨3, false⟩ 3 (some .Tick) ⟨50, 5, 200⟩
        ⟨4, false⟩ 4 h3 rfl
    exact Reachable.step ⟨50, 5, 200⟩ ⟨4, false⟩ 4 (some .Tick) ⟨50, 5, 250⟩
      ⟨5, false⟩ 5 h4 rfl

/-- Witness for the amended C8 at a freshly constructed
`GameLoop::new(20, 5)` with a constant-zero clock. -/
theorem C8_interp_not_clamped_witness :
    (0 : ℚ) ≤ interpOf 0 50 0 ∧ (0 : ℚ) < interpOf 0 50 0 :=
  ⟨(C8_interp_not_clamped).1 (fun _ : Nat => 0) ⟨50, 5, 0⟩ ⟨0, false⟩ 0
      (interpOf 0 50 0) ⟨50, 5, 0⟩ ⟨0, true⟩ 2 rfl,
   (C8_interp_not_clamped).2.1 (fun _ : Nat => 0) ⟨50, 5, 0⟩
      ((⟨50, 5, 0⟩ : GameLoop).actions) 0 (interpOf 0 50 0) ⟨50, 5, 0⟩
      ⟨0, true⟩ 2 monotone_const (Reachable.init 20 5 ⟨50, 5, 0⟩ rfl)
      (by decide) rfl⟩

/-- C9: on `GameLoop::new(20, 5)` (`skip_ticks = 50`), a first poll with
230ms elapsed drains to exactly 5 `Tick` actions (reaching the catch-up
cap) followed by one `Render` with interpolation `(230+50-250)/50 =
3/5`; a first poll on a fresh such scheduler with 400ms elapsed (8 ticks
of debt) drains to exactly 5 `Tick` actions followed by one `Render`
with interpolation `4`. -/
theorem C9_catchup_examples :
    GameLoop.new 20 5 = .ok ⟨50, 5, 0⟩ ∧
    (⟨50, 5, 0⟩ : GameLoop).drain (fun _ => 230) 0 =
      [.Tick, .Tick, .Tick, .Tick, .Tick, .Render (interpOf 230 50 250)] ∧
    ((⟨50, 5, 0⟩ : GameLoop).drain (fun _ => 230) 0).countP
      (fun a => a.isTick) = 5 ∧
    interpOf 230 50 250 = 3 / 5 ∧
    (⟨50, 5, 0⟩ : GameLoop).drain (fun _ => 400) 0 =
      [.Tick, .Tick, .Tick, .Tick, .Tick, .Render (interpOf 400 50 250)] ∧
    ((⟨50, 5, 0⟩ : GameLoop).drain (fun _ => 400) 0).countP
      (fun a => a.isTick) = 5 ∧
    interpOf 400 50 250 = 4 :=
  ⟨rfl, rfl, rfl, by norm_num [interpOf], rfl, rfl, by norm_num [interpOf]⟩

/-- Unfolding `drainAux` one step when `next` is exhausted. -/
theorem drainAux_step_none (clock : Nat → Nat) (fuel : Nat) (hf : 0 < fuel)
    (g : GameLoop) (it : FrameActions) (t : Nat) (g' : GameLoop)
    (it' : FrameActions) (t' : Nat)
    (h : FrameActions.next clock g it t = (none, g', it', t')) :
    drainAux clock fuel g it t = ([], g', it', t') := by
  match fuel, hf with
  | f + 1, _ => simp only [drainAux, h]

/-- Unfolding `drainAux` one step when `next` yields an action. -/
theorem drainAux_step_some (clock : Nat → Nat) (fuel : Nat) (hf : 0 < fuel)
    (g : GameLoop) (it : FrameActions) (t : Nat) (a : FrameAction)
    (g' : GameLoop) (it' : FrameActions) (t' : Nat)
    (h : FrameActions.next clock g it t = (some a, g', it', t')) :
    (drainAux clock fuel g it t).1 =
      a :: (drainAux clock (fuel - 1) g' it' t').1 := by
  match fuel, hf with
  | f + 1, _ => simp only [drainAux, h, Nat.add_sub_cancel]

/-- Draining a zero-interval scheduler (`skip_ticks = 0`,
`next_game_tick = 0`) under a clock whose readings are all positive
yields a tick for every remaining unit of the frameskip budget and then
the render. -/
theorem drainAux_zero_skip (clock : Nat → Nat) (hc : ∀ i, 1 ≤ clock i)
    (mf : Nat) :
    ∀ (k l t : Nat), l + k = mf →
      (drainAux clock (k + 2) (⟨0, mf, 0⟩ : GameLoop) ⟨l, false⟩ t).1 =
        List.replicate k .Tick ++
          [.Render (interpOf (clock (t + k + 1)) 0 0)] := by
  intro k
  induction k with
  | zero =>
    intro l t hl
    have hl2 : l = mf := by omega
    subst hl2
    rcases next_cases clock ⟨0, l, 0⟩ ⟨l, false⟩ t with ⟨h1, h2, heq⟩ |
      ⟨h1, h2, heq⟩ | ⟨h1, h2, heq⟩
    · have h2b : l < l := h2
      omega
    · have heq2 : FrameActions.next clock ⟨0, l, 0⟩ ⟨l, false⟩ t =
          (some (.Render (interpOf (clock (t + 1)) 0 0)), ⟨0, l, 0⟩,
            ⟨l, true⟩, t + 2) := heq
      rcases next_cases clock ⟨0, l, 0⟩ ⟨l, true⟩ (t + 2) with
        ⟨h1b, h2b, heqb⟩ | ⟨h1b, h2b, heqb⟩ | ⟨h1b, h2b, heqb⟩
      · have h2c : l < l := h2b
        omega
      · have h2c : (true : Bool) = false := h2b
        exact absurd h2c (by decide)
      · have heqb2 : FrameActions.next clock ⟨0, l, 0⟩ ⟨l, true⟩ (t + 2) =
            (none, ⟨0, l, 0⟩, ⟨l, true⟩, t + 2 + 1) := heqb
        rw [drainAux_step_some clock (0 + 2) (by omega) ⟨0, l, 0⟩ ⟨l, false⟩
          t _ ⟨0, l, 0⟩ ⟨l, true⟩ (t + 2) heq2]
        rw [drainAux_step_none clock (0 + 2 - 1) (by omega) ⟨0, l, 0⟩
          ⟨l, true⟩ (t + 2) ⟨0, l, 0⟩ ⟨l, true⟩ (t + 2 + 1) heqb2]
        simp
    · have h2b : (false : Bool) = true := h2
      exact absurd h2b (by decide)
  | succ k ih =>
    intro l t hl
    rcases next_cases clock ⟨0, mf, 0⟩ ⟨l, false⟩ t with ⟨h1, h2, heq⟩ |
      ⟨h1, h2, heq⟩ | ⟨h1, h2, heq⟩
    · have heq2 : FrameActions.next clock ⟨0, mf, 0⟩ ⟨l, false⟩ t =
          (some .Tick, ⟨0, mf, 0⟩, ⟨l + 1, false⟩, t + 1) := heq
      rw [drainAux_step_some clock (k + 1 + 2) (by omega) ⟨0, mf, 0⟩
        ⟨l, false⟩ t .Tick ⟨0, mf, 0⟩ ⟨l + 1, false⟩ (t + 1) heq2]
      have hf : k + 1 + 2 - 1 = k + 2 := by omega
      rw [hf, ih (l + 1) (t + 1) (by omega)]
      have hidx : t + 1 + k + 1 = t + (k + 1) + 1 := by omega
      rw [hidx, List.replicate_succ]
      rfl
    · exfalso
      have h1b : ¬((0 : Nat) < clock t ∧ l < mf) := h1
      have hct := hc t
      exact h1b ⟨by omega, by omega⟩
    · exfalso
      have h1b : ¬((0 : Nat) < clock t ∧ l < mf) := h1
      have hct := hc t
      exact h1b ⟨by omega, by omega⟩

/-- C10: for every `tps > 1000` (and `max_frameskip ≥ 1`), construction
succeeds with `skip_ticks = 1000 / tps = 0`; incrementing the deadline
then adds `0`, so `next_game_tick` stays `0` in every reachable state of
a zero-interval scheduler; every fully drained poll performed while the
elapsed readings are positive yields exactly `max_frameskip` `Tick`
actions and then the `Render`, whose interpolation is computed by the
(unguarded) division with denominator `skip_ticks = 0` (in this exact
rational model that division returns `0`; the `f64` division of the
source returns an infinity or NaN, equally unguarded). -/
theorem C10_tps_over_1000 (tps mf : Nat) (htps : 1000 < tps)
    (hmf : 1 ≤ mf) :
    GameLoop.new tps mf = .ok ⟨0, mf, 0⟩ ∧
    (∀ g : GameLoop, g.skip_ticks = 0 → g.increment_next_game_tick = g) ∧
    (∀ (clock : Nat → Nat) (g : GameLoop) (it : FrameActions) (t : Nat),
      Reachable clock g it t → g.skip_ticks = 0 → g.next_game_tick = 0) ∧
    (∀ (clock : Nat → Nat) (t : Nat), (∀ i, 1 ≤ clock i) →
      (⟨0, mf, 0⟩ : GameLoop).drain clock t =
        List.replicate mf .Tick ++
          [.Render (interpOf (clock (t + mf + 1)) 0 0)]) ∧
    (⟨0, mf, 0⟩ : GameLoop).skip_ticks = 0 := by
  refine ⟨?_, ?_, ?_, ?_, rfl⟩
  · unfold GameLoop.new
    rw [if_neg (by omega), if_neg (by omega), Nat.div_eq_of_lt htps]
  · intro g h
    cases g with
    | mk s m n =>
      simp only at h
      subst h
      simp [GameLoop.increment_next_game_tick]
  · intro clock g it t hr
    induction hr with
    | init tps2 mf2 g2 hnew =>
      obtain ⟨hg, -, -⟩ := new_ok tps2 mf2 g2 hnew
      subst hg
      intro _
      rfl
    | poll g2 it2 t2 h ih => exact ih
    | step g2 it2 t2 a g2' it2' t2' h hs ih =>
      rcases next_cases clock g2 it2 t2 with ⟨h1, h2, heq⟩ | ⟨h1, h2, heq⟩ |
        ⟨h1, h2, heq⟩ <;> rw [heq] at hs <;>
        simp only [Prod.mk.injEq] at hs <;>
        obtain ⟨-, hg, -, -⟩ := hs <;> subst hg
      · intro hsk
        simp only [GameLoop.increment_next_game_tick] at hsk ⊢
        have hn := ih hsk
        omega
      · exact ih
      · exact ih
  · intro clock t hclock
    exact drainAux_zero_skip clock hclock mf mf 0 t (by omega)

/-- Witness for C10 at `new(2000, 5)` with a constant clock reading 7. -/
theorem C10_tps_over_1000_witness :
    GameLoop.new 2000 5 = .ok ⟨0, 5, 0⟩ ∧
    (⟨0, 5, 0⟩ : GameLoop).drain (fun _ : Nat => 7) 0 =
      List.replicate 5 .Tick ++ [.Render (interpOf 7 0 0)] :=
  ⟨(C10_tps_over_1000 2000 5 (by omega) (by omega)).1,
   (C10_tps_over_1000 2000 5 (by omega) (by omega)).2.2.2.1
     (fun _ : Nat => 7) 0 (fun _ => by show (1 : Nat) ≤ 7; omega)⟩
